import Mathlib

/-!
Verification development for the FLCleaner backup-cleaning program
(`src/main.rs`).  The Rust source is shallowly embedded: pure logic is
translated to executable Lean functions, filesystem effects (file removal,
metadata/size lookup, directory listings, canonicalization) are passed in as
explicit oracles, and the shared mutex-guarded counters of the scanner are
modelled as a state machine whose step is one locked update from the source.
-/

namespace FLCleaner

/-- ASCII lower-casing of one character, as Rust's `eq_ignore_ascii_case`
uses (only `A`–`Z` are folded). -/
def asciiLower (c : Char) : Char :=
  if 'A' ≤ c ∧ c ≤ 'Z' then Char.ofNat (c.toNat + 32) else c

/-- Rust `str::eq_ignore_ascii_case`, on character lists. -/
def eqIgnoreCase (a b : List Char) : Bool :=
  a.map asciiLower = b.map asciiLower

/-- `p` is a prefix of `s` (character-by-character). -/
def startsWith : List Char → List Char → Bool
  | [], _ => true
  | _ :: _, [] => false
  | p :: ps, c :: cs => p = c && startsWith ps cs

/-- `p` is a suffix of `s`. -/
def endsWith (p s : List Char) : Bool :=
  startsWith p.reverse s.reverse

/-- `p` occurs contiguously somewhere in `s`. -/
def occursIn (p : List Char) : List Char → Bool
  | [] => startsWith p []
  | c :: cs => startsWith p (c :: cs) || occursIn p cs

/-- Decimal value of a digit list (the successful case of Rust
`str::parse::<u32>` on a short ASCII-digit capture). -/
def digitsToNat (l : List Char) : Nat :=
  l.foldl (fun n c => n * 10 + (c.toNat - 48)) 0

/-- The literal marker ` (overwritten at ` of the backup filename pattern. -/
def marker : List Char := " (overwritten at ".toList

/-- Record for one discovered backup file, from `struct BackupFile` in the
source.  `path` keeps the file name the record was built from. -/
structure BackupFile where
  path : String
  project_name : String
  timestamp : String
  file_size : Nat
  parsed_time : Option (Nat × Nat)
deriving Repr, DecidableEq

/-- `format!("{}h{:02}", hours, minutes)` from `BackupFile::new`. -/
def fmtTimestamp (hours minutes : Nat) : String :=
  Nat.repr hours ++ "h" ++ (if minutes < 10 then "0" else "") ++ Nat.repr minutes

/-- Tail matcher for the anchored regex
`^(.+) \(overwritten at (\d{1,2})h(\d{2})\)\.flp$`: checks that `s` is
exactly `marker ++ H ++ "h" ++ MM ++ ").flp"` with `H` of length `hlen`
(1 or 2) and returns the parsed `(hours, minutes)`.

The source regex's `\d` is Unicode-aware, but every capture is then fed to
`str::parse::<u32>`, which accepts ASCII digits only; a non-ASCII-digit
match therefore yields `None` from `BackupFile::new` exactly as an
ASCII-digit test here does (no other tail offset can match, see
`flpRegexMatch`), so `Char.isDigit` (ASCII) is the faithful end-to-end
model. -/
def matchTail (hlen : Nat) (s : List Char) : Option (Nat × Nat) :=
  if startsWith marker s then
    let rest := s.drop 17
    let hds := rest.take hlen
    if hds.length = hlen ∧ hds.all Char.isDigit then
      match rest.drop hlen with
      | 'h' :: m1 :: m2 :: ')' :: '.' :: 'f' :: 'l' :: 'p' :: [] =>
        if m1.isDigit ∧ m2.isDigit then
          some (digitsToNat hds, digitsToNat [m1, m2])
        else none
      | _ => none
    else none
  else none

/-- The regex match of `BackupFile::new`.  The pattern is anchored at both
ends and everything after the first capture has a fixed length of 26
characters (1-digit hour) or 27 characters (2-digit hour), so the greedy
`(.+)` (longest project name = shortest tail) tries the 26-character tail
first and the 27-character tail second.  `(.+)` matches any characters
except `\n` (Rust regex default), hence the newline check on the capture.
Returns `(project name capture, hours, minutes)`. -/
def flpRegexMatch (s : List Char) : Option (List Char × Nat × Nat) :=
  let n := s.length
  let try1 : Option (List Char × Nat × Nat) :=
    if 27 ≤ n ∧ (s.take (n - 26)).all (· ≠ '\n') then
      (matchTail 1 (s.drop (n - 26))).map (fun hm => (s.take (n - 26), hm))
    else none
  let try2 : Option (List Char × Nat × Nat) :=
    if 28 ≤ n ∧ (s.take (n - 27)).all (· ≠ '\n') then
      (matchTail 2 (s.drop (n - 27))).map (fun hm => (s.take (n - 27), hm))
    else none
  try1 <|> try2

/-- `BackupFile::new` from the source.  `fname` is `path.file_name()` (the
caller passes a path whose final component is the file name); `sz` is the
oracle for `fs::metadata(&path).ok()?.len()`: `none` models a failed
metadata lookup. -/
def BackupFile.new (fname : String) (sz : Option Nat) : Option BackupFile :=
  if endsWith ".flp".toList fname.toList then
    match flpRegexMatch fname.toList with
    | some (nm, hours, minutes) =>
      match sz with
      | some file_size =>
        some { path := fname
               project_name := String.mk nm
               timestamp := fmtTimestamp hours minutes
               file_size := file_size
               parsed_time := some (hours, minutes) }
      | none => none
    | none => none
  else none

/-- `BackupFile::get_time_value` from the source. -/
def BackupFile.get_time_value (b : BackupFile) : Nat :=
  match b.parsed_time with
  | some (hours, minutes) => hours * 60 + minutes
  | none => 0

/-! ## RetentionEngine (`FlBackupCleaner::clean_backups`) -/

/-- The comparator `|a, b| b.get_time_value().cmp(&a.get_time_value())`
passed to the stable `sort_by`: `a` may stay before `b` iff `b`'s time value
does not exceed `a`'s (descending order, ties keep input order). -/
def timeDesc (a b : BackupFile) : Bool :=
  b.get_time_value ≤ a.get_time_value

/-- The inner deletion loop of `clean_backups` over `sorted.iter().skip(1)`:
`del` is the oracle for `fs::remove_file` (`true` = `Ok`), the accumulator
is `(total_size_saved, deleted_count)`; an `Err` adds nothing and the loop
continues. -/
def deleteLoop (del : BackupFile → Bool) (l : List BackupFile) (acc : Nat × Nat) :
    Nat × Nat :=
  l.foldl (fun sc b => if del b then (sc.1 + b.file_size, sc.2 + 1) else sc) acc

/-- One iteration of the `for (_project_key, backups) in &mut found_backups`
loop body of `clean_backups`: returns the updated collection for the key and
the `(reclaimed bytes, deleted count)` contribution.  Collections with at
most one entry are left untouched; otherwise the collection is stably sorted
descending by time value, every entry but the first is offered to `del`, and
the collection is truncated to the single first entry. -/
def cleanEntry (del : BackupFile → Bool) (backups : List BackupFile) :
    List BackupFile × Nat × Nat :=
  if backups.length ≤ 1 then (backups, 0, 0)
  else
    let sorted := backups.mergeSort timeDesc
    (sorted.take 1, deleteLoop del (sorted.drop 1) (0, 0))

/-- `FlBackupCleaner::clean_backups` on the found-backups map, which is
modelled as an association list (`HashMap` iteration order is arbitrary;
every entry is processed independently and the reclaimed totals are
order-insensitive sums).  Returns the updated map together with the final
`(total_size_saved, deleted_count)`. -/
def clean_backups (del : BackupFile → Bool)
    (m : List (String × List BackupFile)) :
    List (String × List BackupFile) × Nat × Nat :=
  m.foldr
    (fun kv acc =>
      let r := cleanEntry del kv.2
      ((kv.1, r.1) :: acc.1, r.2.1 + acc.2.1, r.2.2 + acc.2.2))
    ([], 0, 0)

/-- The list of entries `clean_backups` offers to `fs::remove_file` for one
project collection (everything after the retained head of the descending
stable sort), and among them the successfully deleted ones. -/
def attemptedOf (backups : List BackupFile) : List BackupFile :=
  if backups.length ≤ 1 then [] else (backups.mergeSort timeDesc).drop 1

/-- The successfully deleted entries of one project collection. -/
def succDeleted (del : BackupFile → Bool) (backups : List BackupFile) :
    List BackupFile :=
  (attemptedOf backups).filter del

/-! ## ProjectKey construction (`scan_backup_folder`) -/

/-- `format!("{}#{}", project_folder.display(), backup_file.project_name)`
from `scan_backup_folder`; `folder` is the display string of the parent of
the `Backup` directory. -/
def projectKey (folder : String) (name : String) : String :=
  folder ++ "#" ++ name

/-- The `FoundBackup` handler in `update_from_scan_messages`:
`found_backups.entry(key).or_insert_with(Vec::new).push(b)` on the
association-list model. -/
def appendBackup (m : List (String × List BackupFile)) (key : String)
    (b : BackupFile) : List (String × List BackupFile) :=
  match m with
  | [] => [(key, [b])]
  | (k, v) :: rest =>
    if k = key then (k, v ++ [b]) :: rest
    else (k, v) :: appendBackup rest key b

/-! ## ProgressEstimator (the locked counter update in `scan_directory`) -/

/-- One locked update of the shared `(files_scanned, total_estimate)` pair,
performed for every regular file visited (`scan_directory`, the block
guarded by the `global_scanned` mutex): increment the count; if the count
exceeds `total*50/100` the estimate becomes `total*150/100`; if then
`count*100/total` exceeds 95 while `count < total`, the estimate becomes
`count*105/100`.  All arithmetic is Rust `usize` division (floor). -/
def progressStep (s : Nat × Nat) : Nat × Nat :=
  let c := s.1 + 1
  let t1 := if c > s.2 * 50 / 100 then s.2 * 150 / 100 else s.2
  let t2 := if c * 100 / t1 > 95 ∧ c < t1 then c * 105 / 100 else t1
  (c, t2)

/-- `n` successive locked updates (each walker's per-file update is entirely
inside the `global_scanned` lock, so any interleaving of walkers is a
sequence of `progressStep`s on the shared pair). -/
def iterSteps : Nat → Nat × Nat → Nat × Nat
  | 0, s => s
  | n + 1, s => progressStep (iterSteps n s)

/-- Initial shared state of one scan:
`(0, drives.len() * base_estimate_per_drive)` with
`base_estimate_per_drive = 100000` (`start_scan`). -/
def initProgress (drives : Nat) : Nat × Nat :=
  (0, drives * 100000)

/-- Modelled from the spec (§4.4), for comparison with `progressStep`: the
update rule in the spec's own words over exact rational arithmetic —
increment the count; if it exceeds 50% of the estimate, scale the estimate
by 1.5; if count/estimate would exceed 95% while the scan is running,
recompute the estimate as count / 0.95. -/
def specEstimate (c : Nat) (t : ℚ) (running : Bool) : ℚ :=
  let cq : ℚ := (c : ℚ) + 1
  let t1 := if t / 2 < cq then 3 / 2 * t else t
  if 95 / 100 < cq / t1 ∧ running then cq / (95 / 100) else t1

/-! ## ScanCoordinator chunking (`start_scan`, per-drive worker) -/

/-- `let chunk_size = 1.max(top_dirs.len() / max_threads)` from the
per-drive worker in `start_scan` (Rust integer division = floor). -/
def chunkSize (nDirs maxThreads : Nat) : Nat :=
  max 1 (nDirs / maxThreads)

/-- Fuelled worker for `chunksOf`. -/
def chunksGo (k : Nat) : Nat → List α → List (List α)
  | 0, _ => []
  | _, [] => []
  | fuel + 1, l => l.take k :: chunksGo k fuel (l.drop k)

/-- Rust `slice::chunks(k)`: contiguous chunks of size `k`, the last chunk
possibly shorter (`k ≥ 1`; fuelled by the list length). -/
def chunksOf (k : Nat) (l : List α) : List (List α) :=
  chunksGo k l.length l

/-- The chunk list over which `start_scan` spawns one worker thread each:
`top_dirs.chunks(chunk_size)`. -/
def startScanChunks (topDirs : List String) (maxThreads : Nat) :
    List (List String) :=
  chunksOf (chunkSize topDirs.length maxThreads) topDirs

/-! ## TopLevelPartitioner (`get_top_level_directories`) -/

/-- The skip list of `get_top_level_directories`. -/
def topSkipDirs : List String :=
  ["Windows", "Program Files", "Program Files (x86)",
   "$Recycle.Bin", "System Volume Information", "ProgramData",
   "AppData", "PerfLogs", "Recovery", "$WINDOWS.~BT", "$WinREAgent",
   "Config.Msi", "Documents and Settings", "Intel", "$SysReset"]

/-- One directory entry as `get_top_level_directories` sees it:
`ftype` is the `entry.file_type()` result (`none` = `Err`, otherwise
`is_dir`), `name` is `path.file_name().and_then(|n| n.to_str())`
(`none` = non-UTF-8 name). -/
structure DirEntry where
  ftype : Option Bool
  name : Option String
deriving Repr, DecidableEq

/-- `get_top_level_directories` from the source.  `listing` is the
`fs::read_dir(drive)` oracle: `none` models a read error (e.g. permission
denied), in which case no entry is pushed; per-entry `Err`s are dropped by
the source's `filter_map(|e| e.ok())` and are modelled as absent from the
listing.  Returns the kept subdirectory names (each stands for
`entry.path()`). -/
def get_top_level_directories (listing : Option (List DirEntry)) : List String :=
  match listing with
  | none => []
  | some entries =>
    entries.foldr
      (fun e acc =>
        match e.ftype with
        | some true =>
          match e.name with
          | some nm =>
            if topSkipDirs.any (fun skip => eqIgnoreCase nm.toList skip.toList)
                ∨ startsWith ['.'] nm.toList ∨ startsWith ['$'] nm.toList
            then acc
            else nm :: acc
          | none => acc
        | _ => acc)
      []

/-! ## DirectoryWalker (`scan_directory`) -/

/-- The skip list used by `scan_directory`'s `filter_entry`. -/
def walkSkipDirs : List String :=
  ["Windows", "Program Files", "Program Files (x86)",
   "$Recycle.Bin", "System Volume Information", "ProgramData",
   "AppData", "PerfLogs", "Recovery", "$WINDOWS.~BT", "$WinREAgent",
   "node_modules", "Config.Msi", "Documents and Settings", ".git", "Intel",
   "cache", "logs", "temp", "tmp", "obj", "bin", "debug", "release",
   "build", "dist", "target", "packages"]

/-- The `filter_entry` predicate of the `WalkDir` in `scan_directory`:
prune names on the skip list (ASCII-case-insensitively) and names starting
with `.` or `~`. -/
def walkKeep (name : String) : Bool :=
  ¬ (walkSkipDirs.any (fun d => eqIgnoreCase name.toList d.toList)
     ∨ startsWith ['.'] name.toList ∨ startsWith ['~'] name.toList)

/-- A filesystem path as a list of components. -/
abbrev FPath := List String

/-- Abstract filesystem for the walker model.  `children` is the
`read_dir` view: directory path ↦ entries `(name, is_dir)` (symlinks are
not followed — `follow_links(false)` — so only real subdirectories carry
`is_dir = true`).  `canon` is the `fs::canonicalize` oracle (`none` = the
call fails).  A path absent from `children` does not exist. -/
structure Fsys where
  children : List (FPath × List (String × Bool))
  canon : List (FPath × FPath)

/-- The subtree traversal performed by the `WalkDir` iterator inside
`scan_directory`: starting at `p` (already admitted by `filter_entry`),
yield `p` and recursively descend into admitted subdirectories while depth
remains below `max_depth` (root is depth 0, entries are yielded up to
`max_depth`).  Returns every directory descended into, in DFS order.  The
traversal consults only the filesystem — not the shared traversed-set. -/
def walkDirs (fs : Fsys) : Nat → FPath → List FPath
  | 0, p => [p]
  | fuel + 1, p =>
    p :: ((fs.children.lookup p).getD []).foldr
      (fun e acc =>
        if e.2 ∧ walkKeep e.1 then walkDirs fs fuel (p ++ [e.1]) ++ acc
        else acc)
      []

/-- `scan_directory` restricted to its traversal/bookkeeping skeleton:
the canonicalization/dedup block (source lines 960–968), the existence
check, and the `WalkDir` loop.  Input `processed` is the shared
`processed_dirs` set (as a list); the result is the updated set together
with the list of directories the walk descended into.  Per the source,
only the *starting* directory is canonicalized and recorded; when
`canonicalize` fails the walk proceeds without recording. -/
def scan_directory_model (fs : Fsys) (maxDepth : Nat) (dir : FPath)
    (processed : List FPath) : List FPath × List FPath :=
  match fs.canon.lookup dir with
  | some c =>
    if c ∈ processed then (processed, [])
    else
      let pr := c :: processed
      if (fs.children.lookup dir).isSome then
        (pr, if walkKeep (dir.getLastD "") then walkDirs fs maxDepth dir else [])
      else (pr, [])
  | none =>
    if (fs.children.lookup dir).isSome then
      (processed,
       if walkKeep (dir.getLastD "") then walkDirs fs maxDepth dir else [])
    else (processed, [])

/-! ## Application state (`FlBackupCleaner`), `start_scan` entry guard and
`update_from_scan_messages` -/

/-- The deletion status line.  In the source this is a `String` rendered
with `format!` including a `f64` megabyte figure; it is modelled as a tagged
value carrying the exact integers (the transient "Cleaning backup files..."
text is immediately overwritten within the same call). -/
inductive DeletionStatus where
  | empty
  | completeWith (deleted : Nat) (savedBytes : Nat)
deriving Repr, DecidableEq

/-- The fields of `struct FlBackupCleaner` touched by the scan lifecycle.
UI-only fields (theme, settings window state, the `f32` display percentage,
the capped log vectors `error_messages`/`detailed_progress`, and the
`Instant` start time) are omitted; `scan_receiver` is abstracted to whether
a receiver is attached. -/
structure AppState where
  scan_status : String
  deletion_status : DeletionStatus
  found_backups : List (String × List BackupFile)
  total_files_found : Nat
  total_size_saved : Nat
  is_scanning : Bool
  scan_complete : Bool
  scan_receiver : Bool
  scan_progress : String
  files_scanned : Nat
  total_files_estimated : Nat
deriving Repr, DecidableEq

/-- The synchronous body of `FlBackupCleaner::start_scan`: an early return
when a scan is already running, otherwise the field resets performed before
the worker thread is spawned (spawning itself is modelled by
`scan_receiver := true`). -/
def start_scan (s : AppState) : AppState :=
  if s.is_scanning then s
  else
    { s with
      is_scanning := true
      scan_complete := false
      scan_status := "Starting scan..."
      scan_progress := ""
      found_backups := []
      total_files_found := 0
      files_scanned := 0
      total_files_estimated := 0
      scan_receiver := true }

/-- `enum ScanMessage` from the source. -/
inductive ScanMessage where
  | progress (msg : String) (filesScanned : Nat) (totalEstimated : Nat)
  | foundBackup (key : String) (b : BackupFile)
  | complete (totalFound : Nat)
deriving Repr, DecidableEq

/-- The `"AUTO_CLEAN"` sentinel test of `update_from_scan_messages`. -/
def isAutoCleanMsg : ScanMessage → Bool
  | .progress m _ _ => m = "AUTO_CLEAN"
  | _ => false

/-- Whether a message is `ScanMessage::Complete(_)`. -/
def isCompleteMsg : ScanMessage → Bool
  | .complete _ => true
  | _ => false

/-- The `match message` arms of `update_from_scan_messages` (the log-vector
pushes and `f32` percentage write are omitted with those fields; the
`total_files > 0` guard governs the `total_files_estimated` write). -/
def processMsg (s : AppState) : ScanMessage → AppState
  | .progress msg filesScanned totalEstimated =>
    { s with
      scan_progress := msg
      files_scanned := filesScanned
      total_files_estimated :=
        if 0 < totalEstimated then totalEstimated else s.total_files_estimated }
  | .foundBackup key b =>
    { s with found_backups := appendBackup s.found_backups key b }
  | .complete totalFound =>
    { s with
      total_files_found := totalFound
      scan_status :=
        "Scan complete! Found " ++ Nat.repr totalFound ++ " backup files in "
          ++ Nat.repr s.found_backups.length ++ " projects"
      scan_progress := ""
      is_scanning := false
      scan_complete := true
      files_scanned := s.total_files_estimated }

/-- The state mutation of `FlBackupCleaner::clean_backups`: the found map
is cleaned, `total_size_saved` becomes the reclaimed byte total and the
deletion status reports the deleted count and reclaimed bytes. -/
def cleanState (del : BackupFile → Bool) (s : AppState) : AppState :=
  let r := clean_backups del s.found_backups
  { s with
    found_backups := r.1
    total_size_saved := r.2.1
    deletion_status := .completeWith r.2.2 r.2.1 }

/-- `FlBackupCleaner::update_from_scan_messages` for one UI pass draining
`msgs` from the receiver: `AUTO_CLEAN` sentinels are skipped from normal
processing; every other message is applied in order; if a `Complete` was
drained the receiver is dropped, and then — only then — a pending
`AUTO_CLEAN` triggers `clean_backups`. -/
def update_from_scan_messages (del : BackupFile → Bool) (s : AppState)
    (msgs : List ScanMessage) : AppState :=
  let shouldClear := msgs.any isCompleteMsg
  let shouldAutoClean := msgs.any isAutoCleanMsg
  let s1 := (msgs.filter (fun m => ! isAutoCleanMsg m)).foldl processMsg s
  let s2 := if shouldClear then { s1 with scan_receiver := false } else s1
  if shouldClear ∧ shouldAutoClean then cleanState del s2 else s2

/-- The tail of the message stream emitted by the coordinator thread in
`start_scan` once all drive workers have joined: the `Complete` event,
followed by the `"AUTO_CLEAN"` sentinel exactly when auto-clean is
configured *and* at least one backup was found
(`if auto_clean && total_found > 0`). -/
def coordinatorTail (autoClean : Bool) (totalFound finalScanned finalEstimate : Nat) :
    List ScanMessage :=
  [ScanMessage.complete totalFound]
    ++ (if autoClean ∧ 0 < totalFound
        then [ScanMessage.progress "AUTO_CLEAN" finalScanned finalEstimate]
        else [])

end FLCleaner

namespace FLCleaner

example : (BackupFile.new "Foo (overwritten at 3h05).flp" (some 7)).map
    (fun b => (b.project_name, b.timestamp, b.get_time_value))
    = some ("Foo", "3h05", 185) := by decide

example : BackupFile.new "A\nB (overwritten at 3h05).flp" (some 7) = none := by decide

example : (BackupFile.new "A (overwritten at 1h00) (overwritten at 2h00).flp" (some 7)).map
    (fun b => (b.project_name, b.get_time_value))
    = some ("A (overwritten at 1h00)", 120) := by decide

example : BackupFile.new "Foo (overwritten at 3h5).flp" (some 7) = none := by decide

example : BackupFile.new "Foo (overwritten at 3h05).fl" (some 7) = none := by decide

/-! ## Helper lemmas -/

theorem startsWith_self_append (p r : List Char) : startsWith p (p ++ r) = true := by
  induction p with
  | nil => rfl
  | cons c cs ih => simp [startsWith, ih]

theorem marker_ne_nil : marker ≠ [] := by decide

theorem marker_length : marker.length = 17 := by decide

/-- `appendBackup` under a different key leaves the looked-up collection
unchanged. -/
theorem lookup_appendBackup_ne (m : List (String × List BackupFile))
    (k₁ k₂ : String) (b : BackupFile) (h : k₁ ≠ k₂) :
    (appendBackup m k₁ b).lookup k₂ = m.lookup k₂ := by
  have h21 : (k₂ == k₁) = false := beq_eq_false_iff_ne.2 (fun h' => h h'.symm)
  induction m with
  | nil => simp [appendBackup, List.lookup, h21]
  | cons kv rest ih =>
    obtain ⟨k, v⟩ := kv
    by_cases hk : k = k₁
    · subst hk
      simp [appendBackup, List.lookup, h21]
    · simp [appendBackup, hk, List.lookup, ih]

/-- The map part of `clean_backups` is the entrywise clean. -/
theorem clean_backups_fst (del : BackupFile → Bool)
    (m : List (String × List BackupFile)) :
    (clean_backups del m).1 = m.map (fun kv => (kv.1, (cleanEntry del kv.2).1)) := by
  induction m with
  | nil => rfl
  | cons kv rest ih => simp [clean_backups, List.foldr] at ih ⊢; exact ih

/-- Association-list lookup through an entrywise value map. -/
theorem lookup_map_value (m : List (String × List BackupFile))
    (g : List BackupFile → List BackupFile) (k : String) :
    (m.map (fun kv => (kv.1, g kv.2))).lookup k = (m.lookup k).map g := by
  induction m with
  | nil => rfl
  | cons kv rest ih =>
    obtain ⟨k', v⟩ := kv
    by_cases hk : k = k'
    · simp [List.lookup, hk]
    · simp [List.lookup, beq_eq_false_iff_ne.2 hk, ih]

/-! ## C10 -/

/-- C10: if a scan is already in progress (`is_scanning` is true),
`start_scan` returns immediately and leaves every field of the application
state unchanged — no counters are reset, no found backups are cleared, and
no second scan is started. -/
theorem c10_start_scan_guard (s : AppState) (h : s.is_scanning = true) :
    start_scan s = s := by
  simp [start_scan, h]

theorem c10_witness :
    (AppState.mk "scanning" .empty [] 3 4 true false true "p" 5 6).is_scanning = true
    ∧ start_scan (AppState.mk "scanning" .empty [] 3 4 true false true "p" 5 6)
        = AppState.mk "scanning" .empty [] 3 4 true false true "p" 5 6 :=
  ⟨rfl, c10_start_scan_guard _ rfl⟩

/-! ## C6 -/

/-- C6: the claim says the top-level partition is split into contiguous
chunks of size `ceil(partition_size / max_sub_workers)` so that at most
`max_sub_workers` chunk workers are spawned.  The code computes
`1.max(top_dirs.len() / max_threads)` — a *floor* — so for a partition of
5 directories and `max_sub_workers = 2` the chunk size is 2 (the claimed
ceiling is 3) and `chunks` yields 3 chunks, i.e. 3 spawned workers > 2.
The intended bound is documented by the setting itself ("Max threads per
drive", `max_scan_threads`), so the floor is a slip in the code. -/
theorem c6_chunking_code_bug :
    chunkSize 5 2 = 2
    ∧ (5 + 2 - 1) / 2 = 3
    ∧ startScanChunks ["a", "b", "c", "d", "e"] 2
        = [["a", "b"], ["c", "d"], ["e"]]
    ∧ (startScanChunks ["a", "b", "c", "d", "e"] 2).length = 3
    ∧ ¬ ((startScanChunks ["a", "b", "c", "d", "e"] 2).length ≤ 2)
    ∧ (chunksOf 3 ["a", "b", "c", "d", "e"]).length ≤ 2 := by
  refine ⟨by decide, by decide, by decide, by decide, by decide, by decide⟩

/-! ## C7 -/

/-- C7: two `BackupFile` records with the same `project_name` but different
parent-folder paths receive distinct `ProjectKey` strings; consequently a
`FoundBackup` for one key never appends to the other key's collection, and
`clean_backups` computes the other key's retained collection from that
collection alone (so one project's timestamps never cause deletions in the
other). -/
theorem c7_project_keys_distinct (del : BackupFile → Bool)
    (m : List (String × List BackupFile)) (f₁ f₂ nm : String) (b : BackupFile)
    (h : f₁ ≠ f₂) :
    projectKey f₁ nm ≠ projectKey f₂ nm
    ∧ (appendBackup m (projectKey f₁ nm) b).lookup (projectKey f₂ nm)
        = m.lookup (projectKey f₂ nm)
    ∧ (clean_backups del m).1.lookup (projectKey f₂ nm)
        = (m.lookup (projectKey f₂ nm)).map (fun v => (cleanEntry del v).1) := by
  have hkey : projectKey f₁ nm ≠ projectKey f₂ nm := by
    intro heq
    apply h
    have hdata : f₁.data ++ ('#' :: nm.data) = f₂.data ++ ('#' :: nm.data) := by
      have h1 := congrArg String.data heq
      simpa [projectKey, String.data_append] using h1
    have hd : f₁.data = f₂.data := List.append_cancel_right hdata
    cases f₁; cases f₂; simp_all
  refine ⟨hkey, lookup_appendBackup_ne m _ _ b hkey, ?_⟩
  have hm := lookup_map_value m (fun v => (cleanEntry del v).1) (projectKey f₂ nm)
  rw [clean_backups_fst]
  exact hm

theorem c7_witness :
    ("one" : String) ≠ "two"
    ∧ projectKey "one" "Song" ≠ projectKey "two" "Song"
    ∧ (appendBackup [] (projectKey "one" "Song")
        (BackupFile.mk "Song (overwritten at 3h05).flp" "Song" "3h05" 7 (some (3, 5)))).lookup
        (projectKey "two" "Song") = ([] : List (String × List BackupFile)).lookup
        (projectKey "two" "Song") := by
  refine ⟨by decide, ?_, ?_⟩
  · exact (c7_project_keys_distinct (fun _ => true) [] _ _ "Song"
      (BackupFile.mk "Song (overwritten at 3h05).flp" "Song" "3h05" 7 (some (3, 5)))
      (by decide)).1
  · exact (c7_project_keys_distinct (fun _ => true) [] _ _ "Song"
      (BackupFile.mk "Song (overwritten at 3h05).flp" "Song" "3h05" 7 (some (3, 5)))
      (by decide)).2.1

/-! ## C4 -/

/-- The 95%-rule condition with the floor division removed: for any
divisor, `x * 100 / t > 95 ∧ x < t` is `96 * t ≤ 100 * x ∧ x < t`. -/
theorem ratio_cond_iff (x t : Nat) :
    (x * 100 / t > 95 ∧ x < t) ↔ (96 * t ≤ 100 * x ∧ x < t) := by
  rcases Nat.eq_zero_or_pos t with h | h
  · subst h; simp
  · constructor
    · rintro ⟨h1, h2⟩
      refine ⟨?_, h2⟩
      have h96 : 96 ≤ x * 100 / t := h1
      have := (Nat.le_div_iff_mul_le h).1 h96
      omega
    · rintro ⟨h1, h2⟩
      refine ⟨?_, h2⟩
      have : 96 ≤ x * 100 / t := (Nat.le_div_iff_mul_le h).2 (by omega)
      omega

/-- C4 (counterexample): the estimator update does not follow the spec's
rule exactly.  At `(scanned, estimate) = (50, 101)` the code's 1.5× rescale
floors to 151 while the spec's exact `estimate × 1.5` is 151.5; at
`(1439, 1000)` the 95% rule fires and the code recomputes
`1440 * 105 / 100 = 1512`, while the spec's `scanned / 0.95` is
`28800/19 ≈ 1515.8` (no rounding of it gives 1512). -/
theorem c4_step_ne_spec_counterexample :
    progressStep (50, 101) = (51, 151)
    ∧ ((progressStep (50, 101)).2 : ℚ) ≠ specEstimate 50 (101 : ℚ) true
    ∧ progressStep (1439, 1000) = (1440, 1512)
    ∧ ((progressStep (1439, 1000)).2 : ℚ) ≠ specEstimate 1439 (1000 : ℚ) true
    ∧ specEstimate 1439 (1000 : ℚ) true = 28800 / 19 := by
  have h1 : progressStep (50, 101) = (51, 151) := by decide
  have h2 : progressStep (1439, 1000) = (1440, 1512) := by decide
  have hs1 : specEstimate 50 (101 : ℚ) true = 303 / 2 := by
    simp only [specEstimate]
    norm_num
  have hs2 : specEstimate 1439 (1000 : ℚ) true = 28800 / 19 := by
    simp only [specEstimate]
    norm_num
  refine ⟨h1, ?_, h2, ?_, hs2⟩
  · rw [h1, hs1]; norm_num
  · rw [h2, hs2]; norm_num

/-- Floor-free characterization of one estimator update (helper shared by
the estimator invariant proofs). -/
theorem progressStep_characterization (c t : Nat) :
    progressStep (c, t)
      = (c + 1,
         if 96 * (if t < 2 * (c + 1) then 3 * t / 2 else t) ≤ 100 * (c + 1)
             ∧ c + 1 < (if t < 2 * (c + 1) then 3 * t / 2 else t)
         then 21 * (c + 1) / 20
         else (if t < 2 * (c + 1) then 3 * t / 2 else t)) := by
  rw [progressStep]
  have hc1 : (c + 1 > t * 50 / 100) ↔ (t < 2 * (c + 1)) := by omega
  have ht1 : t * 150 / 100 = 3 * t / 2 := by omega
  have ha : (c + 1) * 105 / 100 = 21 * (c + 1) / 20 := by omega
  have he : (if c + 1 > t * 50 / 100 then t * 150 / 100 else t)
      = (if t < 2 * (c + 1) then 3 * t / 2 else t) := by
    by_cases h : t < 2 * (c + 1)
    · rw [if_pos (hc1.2 h), if_pos h, ht1]
    · rw [if_neg (fun hh => h (hc1.1 hh)), if_neg h]
  rw [he]
  have hr := ratio_cond_iff (c + 1) (if t < 2 * (c + 1) then 3 * t / 2 else t)
  by_cases h2 : 96 * (if t < 2 * (c + 1) then 3 * t / 2 else t) ≤ 100 * (c + 1)
      ∧ c + 1 < (if t < 2 * (c + 1) then 3 * t / 2 else t)
  · rw [if_pos (by
      have := hr.2 ⟨h2.1, h2.2⟩
      exact ⟨this.1, this.2⟩), if_pos h2, ha]
  · rw [if_neg (fun hh => h2 ⟨(hr.1 ⟨hh.1, hh.2⟩).1, hh.2⟩), if_neg h2]

/-- C4 (amended): the update increments the scanned count, then scales the
estimate to `⌊estimate * 3/2⌋` exactly when the new count strictly exceeds
half the estimate (`2·count > estimate`, the exact reading of "exceeds
50%"), and then — exactly when `96·estimate ≤ 100·count` (the integer
reading of "would exceed 95%") while the count is still below the estimate
— recomputes the estimate as `⌊count * 21/20⌋`, i.e. count × 1.05, not
count / 0.95. -/
theorem c4_step_characterization (c t : Nat) :
    progressStep (c, t)
      = (c + 1,
         if 96 * (if t < 2 * (c + 1) then 3 * t / 2 else t) ≤ 100 * (c + 1)
             ∧ c + 1 < (if t < 2 * (c + 1) then 3 * t / 2 else t)
         then 21 * (c + 1) / 20
         else (if t < 2 * (c + 1) then 3 * t / 2 else t)) :=
  progressStep_characterization c t

/-! ## C3 -/

/-- Below half of an untouched 100000 estimate, a step only increments the
counter. -/
theorem iterSteps_flat (k : Nat) (h : k ≤ 50000) :
    iterSteps k (initProgress 1) = (k, 100000) := by
  induction k with
  | zero => rfl
  | succ n ih =>
    have hn : n ≤ 50000 := by omega
    rw [iterSteps, ih hn, progressStep]
    have h1 : ¬ (n + 1 > 100000 * 50 / 100) := by omega
    rw [if_neg h1]
    have h2 : ¬ ((n + 1) * 100 / 100000 > 95 ∧ n + 1 < 100000) := by omega
    rw [if_neg h2]

/-- C3 (counterexample): the percentage `files_scanned / total_estimated`
is not monotonically non-decreasing.  With one selected drive, after 50000
observed files the shared state is `(50000, 100000)` (50%); the very next
file triggers the ×1.5 rescale and the state becomes `(50001, 150000)`
(≈33.3%), a strict drop: `50001/150000 < 50000/100000`, shown
cross-multiplied and over `ℚ`. -/
theorem c3_monotonicity_counterexample :
    iterSteps 50000 (initProgress 1) = (50000, 100000)
    ∧ iterSteps 50001 (initProgress 1) = (50001, 150000)
    ∧ 50001 * 100000 < 50000 * 150000
    ∧ ((50001 : ℚ) / 150000 < (50000 : ℚ) / 100000) := by
  have h0 : iterSteps 50000 (initProgress 1) = (50000, 100000) :=
    iterSteps_flat 50000 (by omega)
  have h1 : iterSteps 50001 (initProgress 1) = (50001, 150000) := by
    rw [iterSteps, h0]
    decide
  exact ⟨h0, h1, by norm_num, by norm_num⟩

/-- Half-bound invariant of the estimator: the scanned count never exceeds
half the estimate, and the estimate stays at least 4. -/
theorem progressStep_inv (s : Nat × Nat) (hc : 2 * s.1 ≤ s.2) (ht : 4 ≤ s.2) :
    2 * (progressStep s).1 ≤ (progressStep s).2 ∧ 4 ≤ (progressStep s).2 := by
  obtain ⟨c, t⟩ := s
  simp only at hc ht
  rw [progressStep_characterization]
  by_cases h1 : t < 2 * (c + 1)
  · simp only [if_pos h1]
    have hdead : ¬ (96 * (3 * t / 2) ≤ 100 * (c + 1) ∧ c + 1 < 3 * t / 2) := by
      omega
    simp only [if_neg hdead]
    refine ⟨?_, ?_⟩ <;> dsimp only <;> omega
  · simp only [if_neg h1]
    have hdead : ¬ (96 * t ≤ 100 * (c + 1) ∧ c + 1 < t) := by omega
    simp only [if_neg hdead]
    refine ⟨?_, ?_⟩ <;> dsimp only <;> omega

/-- The invariant holds along every run. -/
theorem iterSteps_inv (d n : Nat) (hd : 1 ≤ d) :
    2 * (iterSteps n (initProgress d)).1 ≤ (iterSteps n (initProgress d)).2
    ∧ 4 ≤ (iterSteps n (initProgress d)).2 := by
  induction n with
  | zero =>
    simp only [iterSteps, initProgress]
    omega
  | succ n ih =>
    rw [iterSteps]
    exact progressStep_inv _ ih.1 ih.2

/-- C3 (amended): over any number of per-file updates from the initial
estimate of any positive number of drives, the scanned count stays strictly
below the estimate, and the derived integer percentage stays at most 50 —
in particular it never reaches 100% before the `Complete` event forces it
to 100. -/
theorem c3_never_full_before_complete (d n : Nat) (hd : 1 ≤ d) :
    (iterSteps n (initProgress d)).1 < (iterSteps n (initProgress d)).2
    ∧ (iterSteps n (initProgress d)).1 * 100 / (iterSteps n (initProgress d)).2 ≤ 50
    ∧ (iterSteps n (initProgress d)).1 * 100 / (iterSteps n (initProgress d)).2 < 100 := by
  obtain ⟨h1, h2⟩ := iterSteps_inv d n hd
  set c := (iterSteps n (initProgress d)).1 with hc
  set t := (iterSteps n (initProgress d)).2 with ht
  have hlt : c < t := by omega
  have hdiv : c * 100 / t ≤ 50 := by
    have hle : c * 100 ≤ 50 * t := by omega
    calc c * 100 / t ≤ 50 * t / t := Nat.div_le_div_right hle
    _ = 50 := Nat.mul_div_cancel 50 (by omega)
  exact ⟨hlt, hdiv, by omega⟩

theorem c3_witness :
    (1 : Nat) ≤ 1
    ∧ ((iterSteps 3 (initProgress 1)).1 < (iterSteps 3 (initProgress 1)).2
       ∧ (iterSteps 3 (initProgress 1)).1 * 100 / (iterSteps 3 (initProgress 1)).2 ≤ 50
       ∧ (iterSteps 3 (initProgress 1)).1 * 100 / (iterSteps 3 (initProgress 1)).2 < 100) :=
  ⟨by decide, c3_never_full_before_complete 1 3 (by decide)⟩

/-! ## C8 -/

/-- C8 (counterexample): the claim says names starting with `~` are
excluded from the top-level partition, but `get_top_level_directories`
only tests the skip list and the `.`/`$` prefixes (the `~` test lives in
the recursive walker's `filter_entry`), so a top-level directory named
`~tmp` is returned. -/
theorem c8_tilde_counterexample :
    get_top_level_directories (some [DirEntry.mk (some true) (some "~tmp")])
      = ["~tmp"]
    ∧ startsWith ['~'] "~tmp".toList = true := by
  refine ⟨by decide, by decide⟩

/-- C8 (amended): a failed root listing yields the empty partition, and on
a successful listing a name is returned exactly when some entry is a
readable directory with that (UTF-8) name and the name neither equals a
skip-list entry ASCII-case-insensitively nor starts with `.` or `$`
(`~`-prefixed names are not excluded here). -/
theorem c8_top_level_characterization :
    get_top_level_directories none = []
    ∧ ∀ (entries : List DirEntry) (nm : String),
        nm ∈ get_top_level_directories (some entries)
          ↔ ∃ e ∈ entries, e.ftype = some true ∧ e.name = some nm
              ∧ (topSkipDirs.any (fun skip => eqIgnoreCase nm.toList skip.toList)) = false
              ∧ startsWith ['.'] nm.toList = false
              ∧ startsWith ['$'] nm.toList = false := by
  refine ⟨rfl, ?_⟩
  intro entries nm
  induction entries with
  | nil => simp [get_top_level_directories]
  | cons e rest ih =>
    obtain ⟨ft, en⟩ := e
    match ft, en with
    | some true, some nm' =>
      by_cases hskip : (topSkipDirs.any (fun skip => eqIgnoreCase nm'.toList skip.toList))
          ∨ startsWith ['.'] nm'.toList ∨ startsWith ['$'] nm'.toList
      · rw [show get_top_level_directories (some (⟨some true, some nm'⟩ :: rest))
            = get_top_level_directories (some rest) from by
          simp only [get_top_level_directories, List.foldr]
          rw [if_pos hskip]]
        rw [ih]
        constructor
        · rintro ⟨e', he', h1, h2, h3⟩
          exact ⟨e', List.mem_cons_of_mem _ he', h1, h2, h3⟩
        · rintro ⟨e', he', h1, h2, h3, h4, h5⟩
          rcases List.mem_cons.1 he' with he | he
          · exfalso
            subst he
            simp only [DirEntry.mk.injEq] at h1 h2
            cases h2
            simp_all
            obtain ⟨x, hx, hx2⟩ := hskip
            exact absurd hx2 (by simp [h3 x hx])
          · exact ⟨e', he, h1, h2, h3, h4, h5⟩
      · rw [show get_top_level_directories (some (⟨some true, some nm'⟩ :: rest))
            = nm' :: get_top_level_directories (some rest) from by
          simp only [get_top_level_directories, List.foldr]
          rw [if_neg hskip]]
        push_neg at hskip
        obtain ⟨hs1, hs2, hs3⟩ := hskip
        constructor
        · intro hmem
          rcases List.mem_cons.1 hmem with he | he
          · subst he
            exact ⟨⟨some true, some nm⟩, List.mem_cons_self _ _, rfl, rfl,
              by simpa using hs1, by simpa using hs2, by simpa using hs3⟩
          · obtain ⟨e', he', h1, h2, h3⟩ := ih.1 he
            exact ⟨e', List.mem_cons_of_mem _ he', h1, h2, h3⟩
        · rintro ⟨e', he', h1, h2, h3, h4, h5⟩
          rcases List.mem_cons.1 he' with he | he
          · subst he
            simp only [DirEntry.mk.injEq] at h2
            cases h2
            exact List.mem_cons_self _ _
          · exact List.mem_cons_of_mem _ (ih.2 ⟨e', he, h1, h2, h3, h4, h5⟩)
    | some true, none =>
      rw [show get_top_level_directories (some (⟨some true, none⟩ :: rest))
          = get_top_level_directories (some rest) from by
        simp [get_top_level_directories, List.foldr]]
      rw [ih]
      constructor
      · rintro ⟨e', he', h1, h2, h3⟩
        exact ⟨e', List.mem_cons_of_mem _ he', h1, h2, h3⟩
      · rintro ⟨e', he', h1, h2, h3⟩
        rcases List.mem_cons.1 he' with he | he
        · exfalso; subst he; simp at h2
        · exact ⟨e', he, h1, h2, h3⟩
    | some false, en =>
      rw [show get_top_level_directories (some (⟨some false, en⟩ :: rest))
          = get_top_level_directories (some rest) from by
        simp [get_top_level_directories, List.foldr]]
      rw [ih]
      constructor
      · rintro ⟨e', he', h1, h2, h3⟩
        exact ⟨e', List.mem_cons_of_mem _ he', h1, h2, h3⟩
      · rintro ⟨e', he', h1, h2, h3⟩
        rcases List.mem_cons.1 he' with he | he
        · exfalso; subst he; simp at h1
        · exact ⟨e', he, h1, h2, h3⟩
    | none, en =>
      rw [show get_top_level_directories (some (⟨none, en⟩ :: rest))
          = get_top_level_directories (some rest) from by
        simp [get_top_level_directories, List.foldr]]
      rw [ih]
      constructor
      · rintro ⟨e', he', h1, h2, h3⟩
        exact ⟨e', List.mem_cons_of_mem _ he', h1, h2, h3⟩
      · rintro ⟨e', he', h1, h2, h3⟩
        rcases List.mem_cons.1 he' with he | he
        · exfalso; subst he; simp at h1
        · exact ⟨e', he, h1, h2, h3⟩

/-! ## C5 -/

/-- A two-directory filesystem (`/a` containing subdirectory `b`) whose
canonicalization is the identity, used to exercise the walker. -/
def fsAB : Fsys :=
  { children := [(["a"], [("b", true)]), (["a", "b"], [])]
    canon := [(["a"], ["a"]), (["a", "b"], ["a", "b"])] }

/-- C5 (counterexample): directories reached *during* the recursive walk
are neither canonicalized nor recorded.  Walking `/a` records only `/a`'s
canonical form in the traversed-set even though the walk descends into
`/a/b`; a later walk started at `/a/b` therefore descends into it again, so
a canonical directory can be visited twice in one scan. -/
theorem c5_walk_records_only_start_counterexample :
    scan_directory_model fsAB 5 ["a"] [] = ([["a"]], [["a"], ["a", "b"]])
    ∧ ["a", "b"] ∈ (scan_directory_model fsAB 5 ["a"] []).2
    ∧ ["a", "b"] ∉ (scan_directory_model fsAB 5 ["a"] []).1
    ∧ ["a", "b"] ∈ (scan_directory_model fsAB 5 ["a", "b"] [["a"]]).2 := by
  refine ⟨by decide, by decide, by decide, by decide⟩

/-- C5 (amended): only the *starting* directory of a walk is canonicalized
and recorded: a start whose canonical form is already in the traversed-set
is pruned with nothing visited; otherwise the set grows by exactly that
canonical form; and when canonicalization fails the set is unchanged.  The
recursive walk itself (`walkDirs`) never consults or extends the set. -/
theorem c5_traversed_set_start_only (fs : Fsys) (maxDepth : Nat) (dir : FPath)
    (processed : List FPath) :
    (∀ c, fs.canon.lookup dir = some c → c ∈ processed →
        scan_directory_model fs maxDepth dir processed = (processed, []))
    ∧ (∀ c, fs.canon.lookup dir = some c → c ∉ processed →
        (scan_directory_model fs maxDepth dir processed).1 = c :: processed)
    ∧ (fs.canon.lookup dir = none →
        (scan_directory_model fs maxDepth dir processed).1 = processed) := by
  refine ⟨?_, ?_, ?_⟩
  · intro c hc hmem
    simp [scan_directory_model, hc, hmem]
  · intro c hc hmem
    simp only [scan_directory_model, hc]
    rw [if_neg hmem]
    by_cases hex : (fs.children.lookup dir).isSome
    · rw [if_pos hex]
    · rw [if_neg hex]
  · intro hc
    simp only [scan_directory_model, hc]
    by_cases hex : (fs.children.lookup dir).isSome
    · rw [if_pos hex]
    · rw [if_neg hex]

theorem c5_witness :
    (fsAB.canon.lookup ["a"] = some ["a"])
    ∧ (["a"] : FPath) ∉ ([] : List FPath)
    ∧ (scan_directory_model fsAB 5 ["a"] []).1 = [["a"]]
    ∧ (fsAB.canon.lookup ["a", "b"] = some ["a", "b"])
    ∧ (["a", "b"] : FPath) ∈ [["a", "b"], ["a"]]
    ∧ scan_directory_model fsAB 5 ["a", "b"] [["a", "b"], ["a"]]
        = ([["a", "b"], ["a"]], []) := by
  refine ⟨by decide, by decide, ?_, by decide, by decide, ?_⟩
  · exact (c5_traversed_set_start_only fsAB 5 ["a"] []).2.1 ["a"]
      (by decide) (by decide)
  · exact (c5_traversed_set_start_only fsAB 5 ["a", "b"] [["a", "b"], ["a"]]).1
      ["a", "b"] (by decide) (by decide)

/-! ## C1 -/

/-- The deletion loop sums the sizes and counts of exactly the entries the
oracle deletes. -/
theorem deleteLoop_spec (del : BackupFile → Bool) (l : List BackupFile)
    (a b : Nat) :
    deleteLoop del l (a, b)
      = (a + ((l.filter del).map BackupFile.file_size).sum,
         b + (l.filter del).length) := by
  induction l generalizing a b with
  | nil => simp [deleteLoop]
  | cons x xs ih =>
    by_cases hx : del x
    · have hstep : deleteLoop del (x :: xs) (a, b)
          = deleteLoop del xs (a + x.file_size, b + 1) := by
        simp [deleteLoop, List.foldl, hx]
      rw [hstep, ih]
      simp [List.filter_cons, hx]
      constructor <;> omega
    · have hstep : deleteLoop del (x :: xs) (a, b) = deleteLoop del xs (a, b) := by
        simp [deleteLoop, List.foldl, hx]
      rw [hstep, ih]
      simp [List.filter_cons, hx]

/-- Per-entry reclaimed bytes and deleted count of `cleanEntry`. -/
theorem cleanEntry_totals (del : BackupFile → Bool) (v : List BackupFile) :
    (cleanEntry del v).2.1 = ((succDeleted del v).map BackupFile.file_size).sum
    ∧ (cleanEntry del v).2.2 = (succDeleted del v).length := by
  by_cases hv : v.length ≤ 1
  · simp [cleanEntry, hv, succDeleted, attemptedOf]
  · simp only [cleanEntry, hv, if_neg, succDeleted, attemptedOf]
    rw [deleteLoop_spec]
    simp

/-- Global totals of `clean_backups`. -/
theorem clean_backups_totals (del : BackupFile → Bool)
    (m : List (String × List BackupFile)) :
    (clean_backups del m).2.1
      = (m.map (fun kv => ((succDeleted del kv.2).map BackupFile.file_size).sum)).sum
    ∧ (clean_backups del m).2.2
      = (m.map (fun kv => (succDeleted del kv.2).length)).sum := by
  induction m with
  | nil => simp [clean_backups]
  | cons kv rest ih =>
    simp only [clean_backups, List.foldr, List.map, List.sum_cons]
    rw [clean_backups] at ih
    refine ⟨?_, ?_⟩
    · rw [ih.1.symm, (cleanEntry_totals del kv.2).1.symm]
    · rw [ih.2.symm, (cleanEntry_totals del kv.2).2.symm]

/-- Flattening the per-project successfully-deleted lists. -/
theorem sum_join_sizes (del : BackupFile → Bool)
    (m : List (String × List BackupFile)) :
    ((m.map (fun kv => succDeleted del kv.2)).flatten.map BackupFile.file_size).sum
      = (m.map (fun kv => ((succDeleted del kv.2).map BackupFile.file_size).sum)).sum := by
  induction m with
  | nil => simp
  | cons kv rest ih =>
    simp only [List.map_cons, List.flatten_cons, List.map_append, List.sum_append,
      List.sum_cons]
    rw [ih]

/-- The retention comparator is transitive. -/
theorem timeDesc_trans :
    ∀ (a b c : BackupFile), timeDesc a b → timeDesc b c → timeDesc a c := by
  intro a b c h1 h2
  simp [timeDesc] at h1 h2 ⊢
  omega

/-- The retention comparator is total. -/
theorem timeDesc_total : ∀ (a b : BackupFile), timeDesc a b || timeDesc b a := by
  intro a b
  simp [timeDesc]
  omega

/-- `timeDesc` is transitive and total, so the stable sort's head carries a
maximal time value. -/
theorem mergeSort_head_time_max (v : List BackupFile) (r : BackupFile)
    (rest : List BackupFile) (h : v.mergeSort timeDesc = r :: rest) :
    ∀ b ∈ v, b.get_time_value ≤ r.get_time_value := by
  intro b hb
  have hsorted := @List.sorted_mergeSort BackupFile timeDesc timeDesc_trans
    timeDesc_total v
  rw [h] at hsorted
  have hmem : b ∈ r :: rest := by
    rw [h.symm]
    exact List.mem_mergeSort.2 hb
  rcases List.mem_cons.1 hmem with hbr | hbr
  · subst hbr; exact Nat.le_refl _
  · have h2 := (List.pairwise_cons.1 hsorted).1 b hbr
    simpa [timeDesc] using h2

/-- C1: for every found-backups map and every deletion oracle, each project
with more than one entry retains exactly one entry of maximal time value
(the head of the stable descending sort); a deletion is attempted for every
other entry of that project (`attemptedOf`, a permutation complement of the
retained entry); the reclaimed byte total is the sum of `file_size` over
exactly the successfully deleted entries (failures add nothing and stop
nothing); the in-memory collection is truncated to the single retained
entry; and single-entry projects are untouched. -/
theorem c1_retention_postcondition (del : BackupFile → Bool)
    (m : List (String × List BackupFile)) (k : String) (v : List BackupFile)
    (hkv : m.lookup k = some v) :
    (1 < v.length →
      ∃ r rest, v.mergeSort timeDesc = r :: rest
        ∧ (clean_backups del m).1.lookup k = some [r]
        ∧ r ∈ v
        ∧ (∀ b ∈ v, b.get_time_value ≤ r.get_time_value)
        ∧ v.Perm (r :: rest)
        ∧ attemptedOf v = rest
        ∧ succDeleted del v = rest.filter del)
    ∧ (v.length ≤ 1 → (clean_backups del m).1.lookup k = some v)
    ∧ (clean_backups del m).2.1
        = ((m.map (fun kv => succDeleted del kv.2)).flatten.map BackupFile.file_size).sum
    ∧ (clean_backups del m).2.2
        = (m.map (fun kv => (succDeleted del kv.2).length)).sum := by
  have hlook : (clean_backups del m).1.lookup k = some (cleanEntry del v).1 := by
    rw [clean_backups_fst]
    have := lookup_map_value m (fun w => (cleanEntry del w).1) k
    rw [this, hkv]
    rfl
  refine ⟨?_, ?_, ?_, ?_⟩
  · intro hlen
    have hne : v.mergeSort timeDesc ≠ [] := by
      intro hnil
      have := @List.length_mergeSort BackupFile timeDesc v
      rw [hnil] at this
      simp at this
      omega
    obtain ⟨r, rest, hcons⟩ := List.exists_cons_of_ne_nil hne
    refine ⟨r, rest, hcons, ?_, ?_, ?_, ?_, ?_, ?_⟩
    · rw [hlook]
      have : (cleanEntry del v).1 = [r] := by
        simp only [cleanEntry, if_neg (by omega : ¬ v.length ≤ 1)]
        rw [hcons]
        rfl
      rw [this]
    · exact List.mem_mergeSort.1 (hcons ▸ List.mem_cons_self r rest)
    · exact mergeSort_head_time_max v r rest hcons
    · exact (hcons ▸ List.mergeSort_perm v timeDesc).symm
    · simp only [attemptedOf, if_neg (by omega : ¬ v.length ≤ 1)]
      rw [hcons]
      rfl
    · simp only [succDeleted, attemptedOf, if_neg (by omega : ¬ v.length ≤ 1)]
      rw [hcons]
      rfl
  · intro hlen
    rw [hlook]
    simp [cleanEntry, hlen]
  · rw [(clean_backups_totals del m).1, sum_join_sizes]
  · exact (clean_backups_totals del m).2

/-- The three backups of the claim's concrete case: time values 540
(9h00, 100 bytes), 870 (14h30, 200 bytes) and 539 (8h59, 50 bytes). -/
def bNine : BackupFile :=
  ⟨"P (overwritten at 9h00).flp", "P", "9h00", 100, some (9, 0)⟩

def bAfternoon : BackupFile :=
  ⟨"P (overwritten at 14h30).flp", "P", "14h30", 200, some (14, 30)⟩

def bMorning : BackupFile :=
  ⟨"P (overwritten at 8h59).flp", "P", "8h59", 50, some (8, 59)⟩

def mThree : List (String × List BackupFile) :=
  [("k", [bNine, bAfternoon, bMorning])]

theorem c1_witness :
    (mThree.lookup "k" = some [bNine, bAfternoon, bMorning])
    ∧ (1 < ([bNine, bAfternoon, bMorning] : List BackupFile).length →
        ∃ r rest, ([bNine, bAfternoon, bMorning] : List BackupFile).mergeSort timeDesc
            = r :: rest
          ∧ (clean_backups (fun _ => true) mThree).1.lookup "k" = some [r]
          ∧ r ∈ ([bNine, bAfternoon, bMorning] : List BackupFile)
          ∧ (∀ b ∈ ([bNine, bAfternoon, bMorning] : List BackupFile),
              b.get_time_value ≤ r.get_time_value)
          ∧ ([bNine, bAfternoon, bMorning] : List BackupFile).Perm (r :: rest)
          ∧ attemptedOf [bNine, bAfternoon, bMorning] = rest
          ∧ succDeleted (fun _ => true) [bNine, bAfternoon, bMorning] = rest.filter (fun _ => true))
    ∧ (clean_backups (fun _ => true) mThree).1.lookup "k" = some [bAfternoon]
    ∧ (clean_backups (fun _ => true) mThree).2.1 = 100 + 50
    ∧ (clean_backups (fun _ => true) mThree).2.2 = 2 := by
  have h := c1_retention_postcondition (fun _ => true) mThree "k"
    [bNine, bAfternoon, bMorning] (by decide)
  have hc : clean_backups (fun _ => true) mThree = ([("k", [bAfternoon])], 150, 2) := by
    simp [clean_backups, mThree, cleanEntry, List.mergeSort, List.merge, timeDesc,
      deleteLoop, bNine, bAfternoon, bMorning, BackupFile.get_time_value]
  refine ⟨by decide, h.1, ?_, ?_, ?_⟩
  · rw [hc]; decide
  · rw [hc]
  · rw [hc]

/-! ## C9 -/

/-- C9 (counterexample): with the auto-clean flag set but zero backups
found, the coordinator never emits the `AUTO_CLEAN` sentinel
(`if auto_clean && total_found > 0`), so the retention engine is not
invoked: the deletion status stays empty instead of reporting a (vacuous)
cleanup.  The claim's "whenever the auto-clean flag is set, retention runs"
is therefore false. -/
theorem c9_autoclean_skipped_counterexample :
    coordinatorTail true 0 500 1000 = [ScanMessage.complete 0]
    ∧ update_from_scan_messages (fun _ => true)
        (AppState.mk "" .empty [] 0 0 true false true "" 0 0)
        (coordinatorTail true 0 500 1000)
      = AppState.mk "Scan complete! Found 0 backup files in 0 projects"
          .empty [] 0 0 false true false "" 0 0
    ∧ (update_from_scan_messages (fun _ => true)
        (AppState.mk "" .empty [] 0 0 true false true "" 0 0)
        (coordinatorTail true 0 500 1000)).deletion_status = DeletionStatus.empty := by
  refine ⟨by decide, by decide, by decide⟩

/-- C9 (amended): in a UI pass that drains the coordinator's completion
tail after any prefix of ordinary messages, retention (`clean_backups`) is
invoked exactly when the auto-clean flag is set *and* at least one backup
was found; it is applied to the state *after* the `Complete` message has
set the completion status fields (so `scan_complete` is already true and
the final status string already reports the scan result when retention
runs), and with auto-clean unset (or nothing found) the pass performs no
retention at all. -/
theorem c9_autoclean_invocation (del : BackupFile → Bool) (s : AppState)
    (msgs : List ScanMessage) (auto : Bool) (total fs te : Nat)
    (hpre : ∀ m ∈ msgs, isAutoCleanMsg m = false) :
    (auto = true → 0 < total →
      update_from_scan_messages del s (msgs ++ coordinatorTail auto total fs te)
        = cleanState del
            { (msgs ++ [ScanMessage.complete total]).foldl processMsg s with
              scan_receiver := false }
      ∧ ((msgs ++ [ScanMessage.complete total]).foldl processMsg s).scan_complete
          = true)
    ∧ ((auto = false ∨ total = 0) →
      update_from_scan_messages del s (msgs ++ coordinatorTail auto total fs te)
        = { (msgs ++ [ScanMessage.complete total]).foldl processMsg s with
            scan_receiver := false }) := by
  have hany : msgs.any isAutoCleanMsg = false :=
    List.any_eq_false.2 (fun m hm => by simp [hpre m hm])
  have hfilter : msgs.filter (fun m => ! isAutoCleanMsg m) = msgs :=
    List.filter_eq_self.2 (fun m hm => by simp [hpre m hm])
  have hcompl : ∀ s' : AppState, (processMsg s' (ScanMessage.complete total)).scan_complete = true :=
    fun s' => rfl
  constructor
  · intro hauto htotal
    have htail : coordinatorTail auto total fs te
        = [ScanMessage.complete total, ScanMessage.progress "AUTO_CLEAN" fs te] := by
      simp [coordinatorTail, hauto, htotal]
    rw [htail]
    constructor
    · simp only [update_from_scan_messages, List.any_append, hany, List.filter_append,
        hfilter, List.foldl_append]
      simp [isAutoCleanMsg, isCompleteMsg, List.filter, List.any]
    · rw [List.foldl_append]
      simp [hcompl]
  · intro hcase
    have htail : coordinatorTail auto total fs te = [ScanMessage.complete total] := by
      rcases hcase with h | h
      · simp [coordinatorTail, h]
      · simp [coordinatorTail, h]
    rw [htail]
    simp only [update_from_scan_messages, List.any_append, hany, List.filter_append,
      hfilter, List.foldl_append]
    simp [isAutoCleanMsg, isCompleteMsg, List.filter, List.any]

theorem c9_witness :
    (∀ m ∈ [ScanMessage.progress "Scanning C:" 5 100], isAutoCleanMsg m = false)
    ∧ (true = true → 0 < 3 →
      update_from_scan_messages (fun _ => true)
          (AppState.mk "" .empty [] 0 0 true false true "" 0 0)
          ([ScanMessage.progress "Scanning C:" 5 100] ++ coordinatorTail true 3 500 1000)
        = cleanState (fun _ => true)
            { ([ScanMessage.progress "Scanning C:" 5 100]
                ++ [ScanMessage.complete 3]).foldl processMsg
                (AppState.mk "" .empty [] 0 0 true false true "" 0 0) with
              scan_receiver := false }
      ∧ (([ScanMessage.progress "Scanning C:" 5 100]
            ++ [ScanMessage.complete 3]).foldl processMsg
            (AppState.mk "" .empty [] 0 0 true false true "" 0 0)).scan_complete = true) :=
  ⟨by decide,
   (c9_autoclean_invocation (fun _ => true)
      (AppState.mk "" .empty [] 0 0 true false true "" 0 0)
      [ScanMessage.progress "Scanning C:" 5 100] true 3 500 1000 (by decide)).1⟩

/-! ## C2 -/

/-- Matching cannot start one position into the marker. -/
theorem startsWith_marker_shift1 (c : Char) (l : List Char) :
    startsWith marker (c :: (marker ++ l)) = false := by
  have hm : marker = ' ' :: '(' :: 'o' :: 'v' :: 'e' :: 'r' :: 'w' :: 'r' :: 'i' ::
      't' :: 't' :: 'e' :: 'n' :: ' ' :: 'a' :: 't' :: ' ' :: [] := by decide
  rw [hm]
  simp [startsWith]

/-- Matching cannot start two positions into the marker. -/
theorem startsWith_marker_shift2 (c₁ c₂ : Char) (l : List Char) :
    startsWith marker (c₁ :: c₂ :: (marker ++ l)) = false := by
  have hm : marker = ' ' :: '(' :: 'o' :: 'v' :: 'e' :: 'r' :: 'w' :: 'r' :: 'i' ::
      't' :: 't' :: 'e' :: 'n' :: ' ' :: 'a' :: 't' :: ' ' :: [] := by decide
  rw [hm]
  simp [startsWith]

/-- A prefix match at any drop offset is an occurrence. -/
theorem occursIn_of_startsWith_drop (p l : List Char) (k : Nat)
    (h : startsWith p (l.drop k) = true) : occursIn p l = true := by
  induction l generalizing k with
  | nil =>
    rw [List.drop_nil] at h
    simpa [occursIn] using h
  | cons c cs ih =>
    cases k with
    | zero =>
      rw [List.drop_zero] at h
      simp [occursIn, h]
    | succ k =>
      rw [List.drop_succ_cons] at h
      simp [occursIn, ih k h]

/-- Without a marker occurrence the tail matcher fails on any suffix. -/
theorem matchTail_none_of_no_marker (hlen : Nat) (l : List Char) (k : Nat)
    (h : occursIn marker l = false) : matchTail hlen (l.drop k) = none := by
  rw [matchTail]
  have hsw : ¬ (startsWith marker (l.drop k) = true) := by
    intro hsw
    rw [occursIn_of_startsWith_drop marker l k hsw] at h
    cases h
  rw [if_neg hsw]

/-- C2 (counterexample): the claim admits any non-empty project name, but
the regex's `(.+)` does not match `
`, so the filename
`"A\nB (overwritten at 3h05).flp"` — which has exactly the claimed shape
with non-empty name `"A\nB"`, 1-digit hour `3` and 2-digit minutes `05` —
produces no `BackupFile` even with a successful size lookup. -/
theorem c2_newline_name_counterexample :
    "A\nB (overwritten at 3h05).flp".toList
      = "A\nB".toList ++ marker ++ ['3'] ++ 'h' :: ['0', '5']
        ++ ')' :: ".flp".toList
    ∧ "A\nB".toList ≠ []
    ∧ ['3'].length = 1 ∧ ['3'].all Char.isDigit
    ∧ (['0', '5'] : List Char).length = 2 ∧ (['0', '5'] : List Char).all Char.isDigit
    ∧ BackupFile.new "A\nB (overwritten at 3h05).flp" (some 100) = none := by
  refine ⟨by decide, by decide, by decide, by decide, by decide, by decide, by decide⟩

/-- The regex succeeds on a well-formed name with a 1-digit hour. -/
theorem flpRegex_pos1 (nm : List Char) (h0 m1 m2 : Char)
    (hnm : nm ≠ []) (hnl : ∀ c ∈ nm, c ≠ '\n')
    (hh : h0.isDigit = true) (hm1 : m1.isDigit = true) (hm2 : m2.isDigit = true) :
    flpRegexMatch
        (nm ++ (marker ++ (h0 :: 'h' :: m1 :: m2 :: ')' :: '.' :: 'f' :: 'l' :: 'p' :: [])))
      = some (nm, digitsToNat [h0], digitsToNat [m1, m2]) := by
  have hall : nm.all (· ≠ '\n') = true := by
    rw [List.all_eq_true]
    intro c hc
    simpa using hnl c hc
  have hnmpos : 1 ≤ nm.length := List.length_pos.2 hnm
  have hlen :
      (nm ++ (marker ++ (h0 :: 'h' :: m1 :: m2 :: ')' :: '.' :: 'f' :: 'l' :: 'p' :: []))).length
        = nm.length + 26 := by
    simp [marker_length]
  have hmt : matchTail 1 (marker ++ (h0 :: 'h' :: m1 :: m2 :: ')' :: '.' :: 'f' :: 'l' :: 'p' :: []))
      = some (digitsToNat [h0], digitsToNat [m1, m2]) := by
    rw [matchTail]
    rw [if_pos (startsWith_self_append marker _)]
    rw [List.drop_left' marker_length]
    simp [hh, hm1, hm2]
  simp only [flpRegexMatch, hlen, Nat.add_sub_cancel]
  rw [if_pos ⟨by omega, by rw [List.take_left]; exact hall⟩]
  rw [List.take_left, List.drop_left]
  rw [hmt]
  rfl

/-- The regex succeeds on a well-formed name with a 2-digit hour; the
greedy 26-character-tail attempt fails because the marker cannot match one
position to the right of itself. -/
theorem flpRegex_pos2 (nm : List Char) (h0 h1 m1 m2 : Char)
    (hnm : nm ≠ []) (hnl : ∀ c ∈ nm, c ≠ '\n')
    (hh0 : h0.isDigit = true) (hh1 : h1.isDigit = true)
    (hm1 : m1.isDigit = true) (hm2 : m2.isDigit = true) :
    flpRegexMatch
        (nm ++ (marker ++ (h0 :: h1 :: 'h' :: m1 :: m2 :: ')' :: '.' :: 'f' :: 'l' :: 'p' :: [])))
      = some (nm, digitsToNat [h0, h1], digitsToNat [m1, m2]) := by
  have hall : nm.all (· ≠ '\n') = true := by
    rw [List.all_eq_true]
    intro c hc
    simpa using hnl c hc
  have hnmpos : 1 ≤ nm.length := List.length_pos.2 hnm
  have hlen :
      (nm ++ (marker ++ (h0 :: h1 :: 'h' :: m1 :: m2 :: ')' :: '.' :: 'f' :: 'l' :: 'p' :: []))).length
        = nm.length + 27 := by
    simp [marker_length]
  have hsub1 : nm.length + 27 - 26 = nm.length + 1 := by omega
  have hsub2 : nm.length + 27 - 27 = nm.length := by omega
  have hmt2 : matchTail 2
      (marker ++ (h0 :: h1 :: 'h' :: m1 :: m2 :: ')' :: '.' :: 'f' :: 'l' :: 'p' :: []))
      = some (digitsToNat [h0, h1], digitsToNat [m1, m2]) := by
    rw [matchTail]
    rw [if_pos (startsWith_self_append marker _)]
    rw [List.drop_left' marker_length]
    simp [hh0, hh1, hm1, hm2]
  have hdrop1 :
      (nm ++ (marker ++ (h0 :: h1 :: 'h' :: m1 :: m2 :: ')' :: '.' :: 'f' :: 'l' :: 'p' :: []))).drop
          (nm.length + 1)
        = marker.drop 1 ++ (h0 :: h1 :: 'h' :: m1 :: m2 :: ')' :: '.' :: 'f' :: 'l' :: 'p' :: []) := by
    rw [List.drop_append 1]
    rw [List.drop_append_eq_append_drop]
    have : (1 : Nat) - marker.length = 0 := by simp [marker_length]
    rw [this, List.drop_zero]
  have hmt1 : matchTail 1
      ((nm ++ (marker ++ (h0 :: h1 :: 'h' :: m1 :: m2 :: ')' :: '.' :: 'f' :: 'l' :: 'p' :: []))).drop
        (nm.length + 1)) = none := by
    rw [hdrop1, matchTail]
    have hsw : startsWith marker
        (marker.drop 1 ++ (h0 :: h1 :: 'h' :: m1 :: m2 :: ')' :: '.' :: 'f' :: 'l' :: 'p' :: []))
        = false := by
      have hm : marker.drop 1 = '(' :: 'o' :: 'v' :: 'e' :: 'r' :: 'w' :: 'r' :: 'i' ::
          't' :: 't' :: 'e' :: 'n' :: ' ' :: 'a' :: 't' :: ' ' :: [] := by decide
      rw [hm]
      have hmm : marker = ' ' :: '(' :: 'o' :: 'v' :: 'e' :: 'r' :: 'w' :: 'r' :: 'i' ::
          't' :: 't' :: 'e' :: 'n' :: ' ' :: 'a' :: 't' :: ' ' :: [] := by decide
      rw [hmm]
      simp [startsWith]
    rw [if_neg (by rw [hsw]; simp)]
  have htake1 :
      (marker ++ (h0 :: h1 :: 'h' :: m1 :: m2 :: ')' :: '.' :: 'f' :: 'l' :: 'p' :: [])).take 1
        = [' '] := by
    have hmm : marker = ' ' :: '(' :: 'o' :: 'v' :: 'e' :: 'r' :: 'w' :: 'r' :: 'i' ::
        't' :: 't' :: 'e' :: 'n' :: ' ' :: 'a' :: 't' :: ' ' :: [] := by decide
    rw [hmm]
    rfl
  simp only [flpRegexMatch, hlen, hsub1, hsub2]
  rw [if_pos ⟨by omega, by
    rw [List.take_append 1, htake1, List.all_append]
    simp only [List.all_cons, List.all_nil, Bool.and_true, Bool.and_eq_true]
    refine ⟨hall, by decide⟩⟩]
  rw [hmt1]
  simp only [Option.map_none', Option.none_orElse]
  rw [if_pos ⟨by omega, by rw [List.take_left]; exact hall⟩]
  rw [List.take_left, List.drop_left, hmt2]
  rfl

/-- A 1-digit minute field never matches when the hour has 1 digit: both
candidate tail offsets land inside the marker. -/
theorem flpRegex_minute1_none_h1 (nm : List Char) (h0 M : Char) :
    flpRegexMatch (nm ++ (marker ++ (h0 :: 'h' :: M :: ')' :: '.' :: 'f' :: 'l' :: 'p' :: [])))
      = none := by
  have hlen :
      (nm ++ (marker ++ (h0 :: 'h' :: M :: ')' :: '.' :: 'f' :: 'l' :: 'p' :: []))).length
        = nm.length + 25 := by
    simp [marker_length]
  simp only [flpRegexMatch, hlen]
  have htry1 : (if 27 ≤ nm.length + 25 ∧
      ((nm ++ (marker ++ (h0 :: 'h' :: M :: ')' :: '.' :: 'f' :: 'l' :: 'p' :: []))).take
        (nm.length + 25 - 26)).all (· ≠ '\n') = true then
      (matchTail 1
        ((nm ++ (marker ++ (h0 :: 'h' :: M :: ')' :: '.' :: 'f' :: 'l' :: 'p' :: []))).drop
          (nm.length + 25 - 26))).map
        (fun hm => ((nm ++ (marker ++ (h0 :: 'h' :: M :: ')' :: '.' :: 'f' :: 'l' :: 'p' :: []))).take
          (nm.length + 25 - 26), hm))
      else none) = none := by
    by_cases hc : 27 ≤ nm.length + 25 ∧
        ((nm ++ (marker ++ (h0 :: 'h' :: M :: ')' :: '.' :: 'f' :: 'l' :: 'p' :: []))).take
          (nm.length + 25 - 26)).all (· ≠ '\n') = true
    · rw [if_pos hc]
      have h2 : 2 ≤ nm.length := by omega
      have hdrop : (nm ++ (marker ++ (h0 :: 'h' :: M :: ')' :: '.' :: 'f' :: 'l' :: 'p' :: []))).drop
          (nm.length + 25 - 26)
          = nm.drop (nm.length - 1) ++ (marker ++ (h0 :: 'h' :: M :: ')' :: '.' :: 'f' :: 'l' :: 'p' :: [])) := by
        rw [List.drop_append_eq_append_drop]
        have hz : nm.length + 25 - 26 - nm.length = 0 := by omega
        have he : nm.length + 25 - 26 = nm.length - 1 := by omega
        rw [hz, he, List.drop_zero]
      obtain ⟨c, hc1⟩ : ∃ c, nm.drop (nm.length - 1) = [c] := by
        apply List.length_eq_one.1
        rw [List.length_drop]
        omega
      rw [hdrop, hc1, matchTail]
      rw [if_neg (by rw [List.singleton_append, startsWith_marker_shift1]; simp)]
      rfl
    · rw [if_neg hc]
  rw [htry1]
  have htry2 : (if 28 ≤ nm.length + 25 ∧
      ((nm ++ (marker ++ (h0 :: 'h' :: M :: ')' :: '.' :: 'f' :: 'l' :: 'p' :: []))).take
        (nm.length + 25 - 27)).all (· ≠ '\n') = true then
      (matchTail 2
        ((nm ++ (marker ++ (h0 :: 'h' :: M :: ')' :: '.' :: 'f' :: 'l' :: 'p' :: []))).drop
          (nm.length + 25 - 27))).map
        (fun hm => ((nm ++ (marker ++ (h0 :: 'h' :: M :: ')' :: '.' :: 'f' :: 'l' :: 'p' :: []))).take
          (nm.length + 25 - 27), hm))
      else none) = none := by
    by_cases hc : 28 ≤ nm.length + 25 ∧
        ((nm ++ (marker ++ (h0 :: 'h' :: M :: ')' :: '.' :: 'f' :: 'l' :: 'p' :: []))).take
          (nm.length + 25 - 27)).all (· ≠ '\n') = true
    · rw [if_pos hc]
      have h3 : 3 ≤ nm.length := by omega
      have hdrop : (nm ++ (marker ++ (h0 :: 'h' :: M :: ')' :: '.' :: 'f' :: 'l' :: 'p' :: []))).drop
          (nm.length + 25 - 27)
          = nm.drop (nm.length - 2) ++ (marker ++ (h0 :: 'h' :: M :: ')' :: '.' :: 'f' :: 'l' :: 'p' :: [])) := by
        rw [List.drop_append_eq_append_drop]
        have hz : nm.length + 25 - 27 - nm.length = 0 := by omega
        have he : nm.length + 25 - 27 = nm.length - 2 := by omega
        rw [hz, he, List.drop_zero]
      obtain ⟨c₁, c₂, hc2⟩ : ∃ c₁ c₂, nm.drop (nm.length - 2) = [c₁, c₂] := by
        apply List.length_eq_two.1
        rw [List.length_drop]
        omega
      rw [hdrop, hc2, matchTail]
      rw [if_neg (by
        rw [show ([c₁, c₂] : List Char)
            ++ (marker ++ (h0 :: 'h' :: M :: ')' :: '.' :: 'f' :: 'l' :: 'p' :: []))
            = c₁ :: c₂ :: (marker ++ (h0 :: 'h' :: M :: ')' :: '.' :: 'f' :: 'l' :: 'p' :: []))
          from rfl]
        rw [startsWith_marker_shift2]
        simp)]
      rfl
    · rw [if_neg hc]
  rw [htry2]
  rfl

/-- A 1-digit minute field never matches when the hour has 2 digits: the
26-character tail parses the second hour digit where `h` must stand, and
the 27-character tail lands inside the marker. -/
theorem flpRegex_minute1_none_h2 (nm : List Char) (h0 h1 M : Char)
    (hh1 : h1.isDigit = true) :
    flpRegexMatch (nm ++ (marker ++ (h0 :: h1 :: 'h' :: M :: ')' :: '.' :: 'f' :: 'l' :: 'p' :: [])))
      = none := by
  have hlen :
      (nm ++ (marker ++ (h0 :: h1 :: 'h' :: M :: ')' :: '.' :: 'f' :: 'l' :: 'p' :: []))).length
        = nm.length + 26 := by
    simp [marker_length]
  have hne : h1 ≠ 'h' := by
    intro hcontra
    rw [hcontra] at hh1
    cases hh1
  have hmt1 : matchTail 1 (marker ++ (h0 :: h1 :: 'h' :: M :: ')' :: '.' :: 'f' :: 'l' :: 'p' :: []))
      = none := by
    rw [matchTail]
    rw [if_pos (startsWith_self_append marker _)]
    rw [List.drop_left' marker_length]
    by_cases hd : h0.isDigit = true
    · simp only [List.take_cons, List.take_zero, List.length_cons, List.length_nil,
        List.all_cons, List.all_nil, hd, List.drop_succ_cons, List.drop_zero]
      rw [if_pos (by simp [hd])]
      split
      · rename_i heq
        simp only [List.cons.injEq] at heq
        obtain ⟨hh1', hm1, hrest⟩ := heq
        rw [if_neg (by
          rw [← hm1]
          rintro ⟨ha, -⟩
          revert ha
          decide)]
      · rfl
    · rw [if_neg (by simp [hd])]
  simp only [flpRegexMatch, hlen]
  have htry1 : (if 27 ≤ nm.length + 26 ∧
      ((nm ++ (marker ++ (h0 :: h1 :: 'h' :: M :: ')' :: '.' :: 'f' :: 'l' :: 'p' :: []))).take
        (nm.length + 26 - 26)).all (· ≠ '\n') = true then
      (matchTail 1
        ((nm ++ (marker ++ (h0 :: h1 :: 'h' :: M :: ')' :: '.' :: 'f' :: 'l' :: 'p' :: []))).drop
          (nm.length + 26 - 26))).map
        (fun hm => ((nm ++ (marker ++ (h0 :: h1 :: 'h' :: M :: ')' :: '.' :: 'f' :: 'l' :: 'p' :: []))).take
          (nm.length + 26 - 26), hm))
      else none) = none := by
    by_cases hc : 27 ≤ nm.length + 26 ∧
        ((nm ++ (marker ++ (h0 :: h1 :: 'h' :: M :: ')' :: '.' :: 'f' :: 'l' :: 'p' :: []))).take
          (nm.length + 26 - 26)).all (· ≠ '\n') = true
    · rw [if_pos hc]
      rw [show nm.length + 26 - 26 = nm.length from by omega, List.drop_left, hmt1]
      rfl
    · rw [if_neg hc]
  have htry2 : (if 28 ≤ nm.length + 26 ∧
      ((nm ++ (marker ++ (h0 :: h1 :: 'h' :: M :: ')' :: '.' :: 'f' :: 'l' :: 'p' :: []))).take
        (nm.length + 26 - 27)).all (· ≠ '\n') = true then
      (matchTail 2
        ((nm ++ (marker ++ (h0 :: h1 :: 'h' :: M :: ')' :: '.' :: 'f' :: 'l' :: 'p' :: []))).drop
          (nm.length + 26 - 27))).map
        (fun hm => ((nm ++ (marker ++ (h0 :: h1 :: 'h' :: M :: ')' :: '.' :: 'f' :: 'l' :: 'p' :: []))).take
          (nm.length + 26 - 27), hm))
      else none) = none := by
    by_cases hc : 28 ≤ nm.length + 26 ∧
        ((nm ++ (marker ++ (h0 :: h1 :: 'h' :: M :: ')' :: '.' :: 'f' :: 'l' :: 'p' :: []))).take
          (nm.length + 26 - 27)).all (· ≠ '\n') = true
    · rw [if_pos hc]
      have h2 : 2 ≤ nm.length := by omega
      have hdrop : (nm ++ (marker ++ (h0 :: h1 :: 'h' :: M :: ')' :: '.' :: 'f' :: 'l' :: 'p' :: []))).drop
          (nm.length + 26 - 27)
          = nm.drop (nm.length - 1)
            ++ (marker ++ (h0 :: h1 :: 'h' :: M :: ')' :: '.' :: 'f' :: 'l' :: 'p' :: [])) := by
        rw [List.drop_append_eq_append_drop]
        have hz : nm.length + 26 - 27 - nm.length = 0 := by omega
        have he : nm.length + 26 - 27 = nm.length - 1 := by omega
        rw [hz, he, List.drop_zero]
      obtain ⟨c, hc1⟩ : ∃ c, nm.drop (nm.length - 1) = [c] := by
        apply List.length_eq_one.1
        rw [List.length_drop]
        omega
      rw [hdrop, hc1, matchTail]
      rw [if_neg (by rw [List.singleton_append, startsWith_marker_shift1]; simp)]
      rfl
    · rw [if_neg hc]
  rw [htry1, htry2]
  rfl

theorem endsWith_append_self (p l : List Char) : endsWith p (l ++ p) = true := by
  rw [endsWith, List.reverse_append]
  exact startsWith_self_append p.reverse l.reverse

theorem mk_toList (l : List Char) : (String.mk l).toList = l := rfl

/-- Without a marker occurrence the whole regex fails. -/
theorem flpRegexMatch_none_of_no_marker (l : List Char)
    (h : occursIn marker l = false) : flpRegexMatch l = none := by
  simp only [flpRegexMatch]
  have h1 := matchTail_none_of_no_marker 1 l (l.length - 26) h
  have h2 := matchTail_none_of_no_marker 2 l (l.length - 27) h
  by_cases hc1 : 27 ≤ l.length ∧ (l.take (l.length - 26)).all (· ≠ '\n') = true
  · rw [if_pos hc1, h1]
    by_cases hc2 : 28 ≤ l.length ∧ (l.take (l.length - 27)).all (· ≠ '\n') = true
    · rw [if_pos hc2, h2]
      rfl
    · rw [if_neg hc2]
      rfl
  · rw [if_neg hc1]
    by_cases hc2 : 28 ≤ l.length ∧ (l.take (l.length - 27)).all (· ≠ '\n') = true
    · rw [if_pos hc2, h2]
      rfl
    · rw [if_neg hc2]
      rfl

/-- C2 (amended): `BackupFile::new` behaves as the claim states for every
filename of the claimed shape whose project name additionally contains no
newline (the regex's `.` does not match `\n`, see the counterexample):
with a successful size lookup it returns the `BackupFile` carrying the
captured name, the `H`/`MM` parse and `time_value = H*60+MM`; a filename
not ending in `.flp`, or lacking the literal marker, or carrying a 1-digit
minute field, yields no match. -/
theorem c2_backup_matcher :
    (∀ (nm H MM : List Char) (sz : Nat),
      nm ≠ [] → (∀ c ∈ nm, c ≠ '\n') →
      1 ≤ H.length → H.length ≤ 2 → (∀ c ∈ H, c.isDigit = true) →
      MM.length = 2 → (∀ c ∈ MM, c.isDigit = true) →
      BackupFile.new
          (String.mk (nm ++ (marker ++ (H ++ 'h' :: MM ++ ')' :: '.' :: 'f' :: 'l' :: 'p' :: []))))
          (some sz)
        = some
            { path := String.mk
                (nm ++ (marker ++ (H ++ 'h' :: MM ++ ')' :: '.' :: 'f' :: 'l' :: 'p' :: [])))
              project_name := String.mk nm
              timestamp := fmtTimestamp (digitsToNat H) (digitsToNat MM)
              file_size := sz
              parsed_time := some (digitsToNat H, digitsToNat MM) }
        ∧ BackupFile.get_time_value
            { path := String.mk
                (nm ++ (marker ++ (H ++ 'h' :: MM ++ ')' :: '.' :: 'f' :: 'l' :: 'p' :: [])))
              project_name := String.mk nm
              timestamp := fmtTimestamp (digitsToNat H) (digitsToNat MM)
              file_size := sz
              parsed_time := some (digitsToNat H, digitsToNat MM) }
            = digitsToNat H * 60 + digitsToNat MM)
    ∧ (∀ (s : String) (sz : Option Nat),
        endsWith ".flp".toList s.toList = false → BackupFile.new s sz = none)
    ∧ (∀ (s : String) (sz : Option Nat),
        occursIn marker s.toList = false → BackupFile.new s sz = none)
    ∧ (∀ (nm H : List Char) (M : Char) (sz : Option Nat),
        1 ≤ H.length → H.length ≤ 2 → (∀ c ∈ H, c.isDigit = true) → M.isDigit = true →
        BackupFile.new
            (String.mk (nm ++ (marker ++ (H ++ 'h' :: M :: ')' :: '.' :: 'f' :: 'l' :: 'p' :: []))))
            sz
          = none) := by
  refine ⟨?_, ?_, ?_, ?_⟩
  · intro nm H MM sz hnm hnl hH1 hH2 hHd hMM hMMd
    obtain ⟨m1, m2, hMeq⟩ : ∃ m1 m2, MM = [m1, m2] := List.length_eq_two.1 hMM
    subst hMeq
    have hm1 : m1.isDigit = true := hMMd m1 (by simp)
    have hm2 : m2.isDigit = true := hMMd m2 (by simp)
    match H, hH1, hH2 with
    | [h0], _, _ =>
      have hh0 : h0.isDigit = true := hHd h0 (by simp)
      have hflp := flpRegex_pos1 nm h0 m1 m2 hnm hnl hh0 hm1 hm2
      have hshape : ([h0] ++ 'h' :: [m1, m2] ++ ')' :: '.' :: 'f' :: 'l' :: 'p' :: [])
          = h0 :: 'h' :: m1 :: m2 :: ')' :: '.' :: 'f' :: 'l' :: 'p' :: [] := by
        simp
      rw [hshape]
      constructor
      · rw [BackupFile.new]
        have hend : endsWith ".flp".toList
            (String.mk (nm ++ (marker ++ (h0 :: 'h' :: m1 :: m2 :: ')' :: '.' :: 'f' :: 'l' :: 'p' :: [])))).toList
            = true := by
          have hre : (nm ++ (marker ++ (h0 :: 'h' :: m1 :: m2 :: ')' :: '.' :: 'f' :: 'l' :: 'p' :: [])))
              = (nm ++ marker ++ [h0, 'h', m1, m2, ')']) ++ ".flp".toList := by
            simp
          show endsWith ".flp".toList
            (nm ++ (marker ++ (h0 :: 'h' :: m1 :: m2 :: ')' :: '.' :: 'f' :: 'l' :: 'p' :: []))) = true
          rw [hre]
          exact endsWith_append_self _ _
        rw [if_pos hend]
        rw [mk_toList, hflp]
      · rfl
    | [h0, h1], _, _ =>
      have hh0 : h0.isDigit = true := hHd h0 (by simp)
      have hh1 : h1.isDigit = true := hHd h1 (by simp)
      have hflp := flpRegex_pos2 nm h0 h1 m1 m2 hnm hnl hh0 hh1 hm1 hm2
      have hshape : ([h0, h1] ++ 'h' :: [m1, m2] ++ ')' :: '.' :: 'f' :: 'l' :: 'p' :: [])
          = h0 :: h1 :: 'h' :: m1 :: m2 :: ')' :: '.' :: 'f' :: 'l' :: 'p' :: [] := by
        simp
      rw [hshape]
      constructor
      · rw [BackupFile.new]
        have hend : endsWith ".flp".toList
            (String.mk (nm ++ (marker ++ (h0 :: h1 :: 'h' :: m1 :: m2 :: ')' :: '.' :: 'f' :: 'l' :: 'p' :: [])))).toList
            = true := by
          have hre : (nm ++ (marker ++ (h0 :: h1 :: 'h' :: m1 :: m2 :: ')' :: '.' :: 'f' :: 'l' :: 'p' :: [])))
              = (nm ++ marker ++ [h0, h1, 'h', m1, m2, ')']) ++ ".flp".toList := by
            simp
          show endsWith ".flp".toList
            (nm ++ (marker ++ (h0 :: h1 :: 'h' :: m1 :: m2 :: ')' :: '.' :: 'f' :: 'l' :: 'p' :: []))) = true
          rw [hre]
          exact endsWith_append_self _ _
        rw [if_pos hend]
        rw [mk_toList, hflp]
      · rfl
  · intro s sz h
    rw [BackupFile.new, if_neg (by rw [h]; simp)]
  · intro s sz h
    rw [BackupFile.new]
    by_cases hend : endsWith ".flp".toList s.toList = true
    · rw [if_pos hend, flpRegexMatch_none_of_no_marker s.toList h]
    · rw [if_neg hend]
  · intro nm H M sz hH1 hH2 hHd hM
    match H, hH1, hH2 with
    | [h0], _, _ =>
      have hshape : ([h0] ++ 'h' :: M :: ')' :: '.' :: 'f' :: 'l' :: 'p' :: [])
          = h0 :: 'h' :: M :: ')' :: '.' :: 'f' :: 'l' :: 'p' :: [] := by
        simp
      rw [hshape, BackupFile.new]
      by_cases hend : endsWith ".flp".toList
          (String.mk (nm ++ (marker ++ (h0 :: 'h' :: M :: ')' :: '.' :: 'f' :: 'l' :: 'p' :: [])))).toList = true
      · rw [if_pos hend, mk_toList, flpRegex_minute1_none_h1 nm h0 M]
      · rw [if_neg hend]
    | [h0, h1], _, _ =>
      have hh1 : h1.isDigit = true := hHd h1 (by simp)
      have hshape : ([h0, h1] ++ 'h' :: M :: ')' :: '.' :: 'f' :: 'l' :: 'p' :: [])
          = h0 :: h1 :: 'h' :: M :: ')' :: '.' :: 'f' :: 'l' :: 'p' :: [] := by
        simp
      rw [hshape, BackupFile.new]
      by_cases hend : endsWith ".flp".toList
          (String.mk (nm ++ (marker ++ (h0 :: h1 :: 'h' :: M :: ')' :: '.' :: 'f' :: 'l' :: 'p' :: [])))).toList = true
      · rw [if_pos hend, mk_toList, flpRegex_minute1_none_h2 nm h0 h1 M hh1]
      · rw [if_neg hend]

theorem c2_witness :
    ("Foo".toList ≠ [] ∧ (∀ c ∈ "Foo".toList, c ≠ '\n')
      ∧ (1 ≤ (['3'] : List Char).length) ∧ (['3'] : List Char).length ≤ 2
      ∧ (∀ c ∈ (['3'] : List Char), c.isDigit = true)
      ∧ (['0', '5'] : List Char).length = 2
      ∧ (∀ c ∈ (['0', '5'] : List Char), c.isDigit = true))
    ∧ String.mk ("Foo".toList
        ++ (marker ++ ((['3'] : List Char) ++ 'h' :: (['0', '5'] : List Char)
            ++ ')' :: '.' :: 'f' :: 'l' :: 'p' :: [])))
        = "Foo (overwritten at 3h05).flp"
    ∧ (BackupFile.new
          (String.mk ("Foo".toList
            ++ (marker ++ ((['3'] : List Char) ++ 'h' :: (['0', '5'] : List Char)
                ++ ')' :: '.' :: 'f' :: 'l' :: 'p' :: [])))) (some 7)
        = some
            { path := String.mk ("Foo".toList
                ++ (marker ++ ((['3'] : List Char) ++ 'h' :: (['0', '5'] : List Char)
                    ++ ')' :: '.' :: 'f' :: 'l' :: 'p' :: [])))
              project_name := String.mk "Foo".toList
              timestamp := fmtTimestamp (digitsToNat ['3']) (digitsToNat ['0', '5'])
              file_size := 7
              parsed_time := some (digitsToNat ['3'], digitsToNat ['0', '5']) }
        ∧ BackupFile.get_time_value
            { path := String.mk ("Foo".toList
                ++ (marker ++ ((['3'] : List Char) ++ 'h' :: (['0', '5'] : List Char)
                    ++ ')' :: '.' :: 'f' :: 'l' :: 'p' :: [])))
              project_name := String.mk "Foo".toList
              timestamp := fmtTimestamp (digitsToNat ['3']) (digitsToNat ['0', '5'])
              file_size := 7
              parsed_time := some (digitsToNat ['3'], digitsToNat ['0', '5']) }
            = digitsToNat ['3'] * 60 + digitsToNat ['0', '5'])
    ∧ digitsToNat ['3'] * 60 + digitsToNat ['0', '5'] = 185
    ∧ fmtTimestamp (digitsToNat ['3']) (digitsToNat ['0', '5']) = "3h05"
    ∧ String.mk "Foo".toList = "Foo" :=
  ⟨⟨by decide, by decide, by decide, by decide, by decide, by decide, by decide⟩,
   by decide,
   c2_backup_matcher.1 "Foo".toList ['3'] ['0', '5'] 7 (by decide) (by decide)
     (by decide) (by decide) (by decide) (by decide) (by decide),
   by decide, by decide, by decide⟩

end FLCleaner
